import Mathlib

/-!
Verification of the `roundtable` multi-model debate tool against its
natural-language specification.  The Go sources are shallowly embedded:
pure functions become Lean functions, channel-driven loops become
functions over explicit event traces, and the SQLite store becomes an
explicit record of table rows.  Strings are modelled as lists of
characters (`Str`), with ASCII case folding standing in for the
Unicode folding of `strings.ToLower` and the `(?i)` regexp flag.
-/

set_option autoImplicit false
set_option linter.unnecessarySeqFocus false

namespace Roundtable

/-- Character strings of the Go source, modelled as lists of characters. -/
abbrev Str := List Char

/-- ASCII lower-casing of one character (`strings.ToLower` / `(?i)` on ASCII). -/
def lowerChar (c : Char) : Char :=
  if 'A' ≤ c ∧ c ≤ 'Z' then Char.ofNat (c.toNat + 32) else c

/-- ASCII lower-casing of a string. -/
def lowerStr (s : Str) : Str := s.map lowerChar

/-- The whitespace class of Go `regexp`'s `\s`, i.e. `[\t\n\f\r ]`. -/
def isRegexSpace (c : Char) : Bool :=
  c = ' ' || c = '\t' || c = '\n' || c = '\x0c' || c = '\r'

/-- Whitespace removed by `strings.TrimSpace` (ASCII fragment of `unicode.IsSpace`). -/
def isTrimSpace (c : Char) : Bool :=
  c = ' ' || c = '\t' || c = '\n' || c = '\x0b' || c = '\x0c' || c = '\r'

/-- Go `strings.TrimSpace`: drop whitespace from both ends. -/
def trimSpace (s : Str) : Str :=
  ((s.dropWhile isTrimSpace).reverse.dropWhile isTrimSpace).reverse

/-- Does `pat` (already lower-case) start the string `s`, comparing
case-insensitively?  Models the anchored step of a `(?i)` literal. -/
def startsCI : Str → Str → Bool
  | [], _ => true
  | _ :: _, [] => false
  | p :: ps, c :: cs => (p = lowerChar c) && startsCI ps cs

/-- Go `strings.Contains hay needle` (exact, case-sensitive): `needle`
occurs as a contiguous substring of `hay`. -/
def isStartOf : Str → Str → Bool
  | [], _ => true
  | _ :: _, [] => false
  | p :: ps, c :: cs => (p = c) && isStartOf ps cs

/-- Go `containsSub needle hay`: `needle` occurs somewhere in `hay`. -/
def containsSub (needle : Str) : Str → Bool
  | [] => isStartOf needle []
  | c :: rest => isStartOf needle (c :: rest) || containsSub needle rest

/-! ## Consensus analyzer (`internal/consensus/consensus.go`) -/

/-- Go `Position` of `internal/consensus/consensus.go`. -/
inductive Position
  | unknown
  | agree
  | object
  | add
deriving DecidableEq

/-- Go `ParsedPosition` of `internal/consensus/consensus.go`. -/
structure ParsedPosition where
  position : Position
  target : Str
  reason : Str
  point : Str
  rawContent : Str
deriving DecidableEq

/-- The greedy capture group `([^\]\n]+)` of `agreePattern`. -/
def agreeCapture (cs : Str) : Str :=
  cs.takeWhile (fun d => d ≠ ']' && d ≠ '\n')

/-- Backtracking match of `\s*\[?([^\]\n]+)\]?` (the tail of
`agreePattern`) at the start of `cs`, returning the capture group of
the leftmost-first match, as Go's `regexp` produces it. -/
def agreeTail : Str → Option Str
  | [] => none
  | c :: rest =>
    if isRegexSpace c then
      match agreeTail rest with
      | some r => some r
      | none => if c = '\n' then none else some (agreeCapture (c :: rest))
    else if c = '[' then
      let run := agreeCapture rest
      if run ≠ [] then some run else some (agreeCapture (c :: rest))
    else if c = ']' then none
    else some (agreeCapture (c :: rest))

/-- The capture `(.+?)` terminated by `(?:\n|$)`: everything up to the
next newline. -/
def dotCapture (cs : Str) : Str := cs.takeWhile (· ≠ '\n')

/-- Backtracking match of `\s*(.+?)(?:\n|$)` (the tail of
`objectPattern` and `addPattern`) at the start of `cs`. -/
def lineTail : Str → Option Str
  | [] => none
  | c :: rest =>
    if isRegexSpace c then
      match lineTail rest with
      | some r => some r
      | none => if c = '\n' then none else some (dotCapture (c :: rest))
    else some (dotCapture (c :: rest))

/-- Go `FindStringSubmatch` for a pattern `(?i)MARKER…tail…`: try each
start position left to right; where the case-insensitive literal
`marker` matches, match the tail after it; on tail failure move on. -/
def findCapture (marker : Str) (tail : Str → Option Str) : Str → Option Str
  | [] => none
  | c :: rest =>
    match (if startsCI marker (c :: rest) then tail ((c :: rest).drop marker.length) else none) with
    | some r => some r
    | none => findCapture marker tail rest

/-- Go `agreePattern.FindStringSubmatch`, submatch 1. -/
def findAgree (cs : Str) : Option Str := findCapture "agree:".toList agreeTail cs

/-- Go `objectPattern.FindStringSubmatch`, submatch 1. -/
def findObject (cs : Str) : Option Str := findCapture "object:".toList lineTail cs

/-- Go `addPattern.FindStringSubmatch`, submatch 1. -/
def findAdd (cs : Str) : Option Str := findCapture "add:".toList lineTail cs

/-- Go `agreeKeywords` of consensus.go. -/
def agreeKeywords : List Str :=
  [("i agree" : String).toList, ("agreed" : String).toList, ("concur" : String).toList,
   ("support this" : String).toList, ("that's correct" : String).toList,
   ("exactly right" : String).toList]

/-- Go `objectKeywords` of consensus.go. -/
def objectKeywords : List Str :=
  [("i disagree" : String).toList, ("i object" : String).toList, ("however" : String).toList,
   ("but i think" : String).toList, ("that's wrong" : String).toList,
   ("incorrect" : String).toList]

/-- Go `addKeywords` of consensus.go. -/
def addKeywords : List Str :=
  [("i would add" : String).toList, ("additionally" : String).toList,
   ("also consider" : String).toList, ("one more thing" : String).toList,
   ("to expand on" : String).toList]

/-- Does the (already lower-cased) content contain one of the keywords? -/
def hasKeyword (kws : List Str) (lower : Str) : Bool :=
  kws.any (fun k => containsSub k lower)

/-- Go `ParseResponse` of consensus.go: explicit markers first, then the
keyword fallback, otherwise unknown. -/
def ParseResponse (content : Str) : ParsedPosition :=
  let lower := lowerStr content
  match findAgree content with
  | some t => ⟨.agree, trimSpace t, [], [], content⟩
  | none =>
    match findObject content with
    | some r => ⟨.object, [], trimSpace r, [], content⟩
    | none =>
      match findAdd content with
      | some p => ⟨.add, [], [], trimSpace p, content⟩
      | none =>
        if hasKeyword agreeKeywords lower then ⟨.agree, [], [], [], content⟩
        else if hasKeyword objectKeywords lower then ⟨.object, [], [], [], content⟩
        else if hasKeyword addKeywords lower then ⟨.add, [], [], [], content⟩
        else ⟨.unknown, [], [], [], content⟩

/-- Go `ConsensusResult` of consensus.go. -/
structure ConsensusResult where
  HasConsensus : Bool
  AgreeCount : Nat
  ObjectCount : Nat
  AddCount : Nat
  UnknownCount : Nat
  TotalCount : Nat
  AgreementTarget : Str
  Objections : List Str
  Additions : List Str
deriving DecidableEq

/-- The all-zero `ConsensusResult{}` literal of Go. -/
def emptyResult : ConsensusResult := ⟨false, 0, 0, 0, 0, 0, [], [], []⟩

/-- Accumulator of the counting loop inside `AnalyzeConsensus`. -/
structure AnalyzeAcc where
  agree : Nat
  object : Nat
  add : Nat
  unknown : Nat
  targetCounts : List (Str × Nat)
  objections : List Str
  additions : List Str

def emptyAcc : AnalyzeAcc := ⟨0, 0, 0, 0, [], [], []⟩

/-- Go `targetCounts[parsed.Target]++` on the assoc-list model of the Go map
(first-insertion order preserved). -/
def bumpTarget (t : Str) : List (Str × Nat) → List (Str × Nat)
  | [] => [(t, 1)]
  | (k, n) :: rest => if k = t then (k, n + 1) :: rest else (k, n) :: bumpTarget t rest

/-- One iteration of the `for _, parsed := range positions` loop. -/
def analyzeStep (acc : AnalyzeAcc) (e : String × ParsedPosition) : AnalyzeAcc :=
  match e.2.position with
  | .agree =>
    { acc with
      agree := acc.agree + 1
      targetCounts := if e.2.target ≠ [] then bumpTarget e.2.target acc.targetCounts
                      else acc.targetCounts }
  | .object =>
    { acc with
      object := acc.object + 1
      objections := acc.objections ++ (if e.2.reason ≠ [] then [e.2.reason] else []) }
  | .add =>
    { acc with
      add := acc.add + 1
      additions := acc.additions ++ (if e.2.point ≠ [] then [e.2.point] else []) }
  | .unknown => { acc with unknown := acc.unknown + 1 }

/-- The `maxCount` loop selecting the most agreed-upon target. -/
def maxTarget : List (Str × Nat) → Nat → Str → Str
  | [], _, best => best
  | (k, n) :: rest, maxCount, best =>
    if maxCount < n then maxTarget rest n k else maxTarget rest maxCount best

/-- Go `AnalyzeConsensus` of consensus.go, on the entries of the Go map
`positions` (keyed by model id); the entry order stands for the map's
iteration order, on which no counted field depends. -/
def analyzeLoop (positions : List (String × ParsedPosition)) : AnalyzeAcc :=
  positions.foldl analyzeStep emptyAcc

def AnalyzeConsensus (positions : List (String × ParsedPosition)) : ConsensusResult :=
  if positions.length = 0 then { emptyResult with TotalCount := positions.length }
  else
    { HasConsensus := decide (positions.length / 2 + 1 ≤ (analyzeLoop positions).agree) &&
        decide ((analyzeLoop positions).object = 0)
      AgreeCount := (analyzeLoop positions).agree
      ObjectCount := (analyzeLoop positions).object
      AddCount := (analyzeLoop positions).add
      UnknownCount := (analyzeLoop positions).unknown
      TotalCount := positions.length
      AgreementTarget := maxTarget (analyzeLoop positions).targetCounts 0 []
      Objections := (analyzeLoop positions).objections
      Additions := (analyzeLoop positions).additions }

/-- Number of parsed positions of kind `k` among the map entries. -/
def countKind (k : Position) (positions : List (String × ParsedPosition)) : Nat :=
  positions.countP (fun e => decide (e.2.position = k))

/-! ## Model backends (`internal/models/types.go`, `model.go`) -/

/-- Go `ModelStatus` of types.go. -/
inductive ModelStatus
  | idle
  | responding
  | waiting
  | error
  | timeout
deriving DecidableEq

/-- Go `Chunk` of types.go; the Go `error` value is modelled by its message. -/
structure Chunk where
  text : Str := []
  done : Bool := false
  error : Option Str := none
  isTimeout : Bool := false
deriving DecidableEq

/-- A chunk is terminal when it carries `done = true` or a non-nil error. -/
def terminalChunk (c : Chunk) : Bool := c.done || c.error.isSome

/-- Go `ModelInfo` of types.go. -/
structure ModelInfo where
  ID : String
  Name : String
  Color : String
  CanExec : Bool
  CanRead : Bool
deriving DecidableEq

/-! ## Claude adapter (`internal/models/claude.go`)

`ClaudeModel.Send` launches the CLI and scans stdout line by line.  The
JSON decoding of each line is modelled by giving the decoded event
shapes directly; `parseClaudeLine` is `parseLine` on those shapes. -/

/-- Decoded shape of one stdout line, per `ClaudeModel.parseLine`. -/
inductive ClaudeEvent
  | invalidLine
  | systemEvent
  | resultEvent (res : Option Str) (isError : Bool)
  | assistantText (t : Str)
  | assistantNoText
  | deltaText (t : Str)
  | errorEvent (msg : Str)

/-- One iteration of the scan loop: either the context was observed
cancelled before the line, or a line arrived. -/
inductive ClaudeStep
  | cancelled
  | line (e : ClaudeEvent)

def claudeDefaultErrMsg : Str := ("Claude returned an error" : String).toList

def claudeStderrMsg : Str := ("claude stderr" : String).toList

def pipeErrMsg : Str := ("stdout pipe" : String).toList

def startErrMsg : Str := ("start" : String).toList

/-- Go `ClaudeModel.parseLine` on a decoded event. -/
def parseClaudeLine : ClaudeEvent → Option Chunk
  | .invalidLine => none
  | .systemEvent => none
  | .resultEvent res isError =>
    match res with
    | some r =>
      if r ≠ [] then some { text := r, done := true }
      else if isError then some { error := some r }
      else some { done := true }
    | none =>
      if isError then some { error := some claudeDefaultErrMsg }
      else some { done := true }
  | .assistantText t => some { text := t }
  | .assistantNoText => none
  | .deltaText t => some { text := t }
  | .errorEvent m => some { error := some m }

/-- The scanner loop of `ClaudeModel.Send` plus its epilogue (stderr
check, trailing `Chunk{Done: true}`).  `got` is `gotResponse`. -/
def claudeLoop : List ClaudeStep → Bool → Bool → List Chunk
  | [], got, stderrNE =>
    if !got && stderrNE then [{ error := some claudeStderrMsg }] else [{ done := true }]
  | .cancelled :: _, _, _ => [{ done := true }]
  | .line e :: rest, got, stderrNE =>
    match parseClaudeLine e with
    | none => claudeLoop rest got stderrNE
    | some c => c :: claudeLoop rest (got || decide (c.text ≠ [])) stderrNE

/-- Input universe of one `ClaudeModel.Send` invocation. -/
structure ClaudeInput where
  pipeErr : Bool
  startErr : Bool
  steps : List ClaudeStep
  stderrNonEmpty : Bool

/-- The chunk sequence emitted by `ClaudeModel.Send`. -/
def claudeSend (inp : ClaudeInput) : List Chunk :=
  if inp.pipeErr then [{ error := some pipeErrMsg }]
  else if inp.startErr then [{ error := some startErrMsg }]
  else claudeLoop inp.steps false inp.stderrNonEmpty

/-! ## Gemini adapter (`internal/models/gemini.go`) -/

/-- Decoded shape of one stdout line, per `GeminiModel.parseLine`; a
non-JSON line is `plainText` (treated as content when non-empty). -/
inductive GeminiEvent
  | plainText (t : Str)
  | assistantText (t : Str)
  | assistantNoText
  | deltaText (t : Str)
  | resultDone
  | errorEvent (msg : Str)

inductive GeminiStep
  | cancelled
  | line (e : GeminiEvent)

/-- Go `GeminiModel.parseLine` on a decoded event. -/
def parseGeminiLine : GeminiEvent → Option Chunk
  | .plainText t => if t ≠ [] then some { text := t } else none
  | .assistantText t => some { text := t }
  | .assistantNoText => none
  | .deltaText t => some { text := t }
  | .resultDone => some { done := true }
  | .errorEvent m => some { error := some m }

/-- The scanner loop of `GeminiModel.Send`; `acc` mirrors `fullText`,
which `parseLine` extends by exactly the emitted chunk's text, and the
epilogue emits `Chunk{Text: fullText.String(), Done: true}`. -/
def geminiLoop : List GeminiStep → Str → List Chunk
  | [], acc => [{ text := acc, done := true }]
  | .cancelled :: _, _ => [{ done := true }]
  | .line e :: rest, acc =>
    match parseGeminiLine e with
    | none => geminiLoop rest acc
    | some c => c :: geminiLoop rest (acc ++ c.text)

structure GeminiInput where
  pipeErr : Bool
  startErr : Bool
  steps : List GeminiStep

/-- The chunk sequence emitted by `GeminiModel.Send`. -/
def geminiSend (inp : GeminiInput) : List Chunk :=
  if inp.pipeErr then [{ error := some pipeErrMsg }]
  else if inp.startErr then [{ error := some startErrMsg }]
  else geminiLoop inp.steps []

/-! ## Grok adapter (`internal/models/grok.go`)

The SSE stream is modelled by its decoded `choices` entries, flattened
into one event per choice (the per-read-buffer grouping of lines has no
semantic effect on the emitted chunks). -/

/-- One entry of `choices` of a decoded SSE data line. -/
structure GrokChoice where
  content : Str
  finishStop : Bool

inductive GrokEvent
  | ctxDone
  | readErr (msg : Str)
  | choice (c : GrokChoice)

/-- Outcome of the request phase before the stream is read
(`DoWithRetry` result and status check). -/
inductive GrokPre
  | ok
  | deadline
  | rateLimit
  | connFail (msg : Str)
  | badStatus (code : Nat) (body : Str)

def grokTimeoutMsg : Str := ("request timed out" : String).toList

def grokRateLimitMsg : Str := ("rate limit exceeded - try again later" : String).toList

def grokStatusMsg (code : Nat) (body : Str) : Str :=
  ("API error " : String).toList ++ (toString code).toList ++ (": " : String).toList ++ body

/-- The SSE read loop of `GrokModel.Send`; `acc` mirrors `fullText`. -/
def grokLoop : List GrokEvent → Str → List Chunk
  | [], acc => [{ text := acc, done := true }]
  | .ctxDone :: _, _ => [{ done := true }]
  | .readErr m :: _, _ => [{ error := some m }]
  | .choice c :: rest, acc =>
    let outs : List Chunk := if c.content ≠ [] then [{ text := c.content }] else []
    let acc' := acc ++ c.content
    if c.finishStop then outs ++ [{ text := acc', done := true }]
    else outs ++ grokLoop rest acc'

structure GrokInput where
  pre : GrokPre
  events : List GrokEvent

/-- The chunk sequence emitted by `GrokModel.Send`. -/
def grokSend (inp : GrokInput) : List Chunk :=
  match inp.pre with
  | .ok => grokLoop inp.events []
  | .deadline => [{ error := some grokTimeoutMsg, isTimeout := true }]
  | .rateLimit => [{ error := some grokRateLimitMsg }]
  | .connFail m => [{ error := some m }]
  | .badStatus code body => [{ error := some (grokStatusMsg code body) }]

/-! ## GPT adapter (`internal/models/gpt.go`)

`GPTModel.Send` posts the completion request with a plain `http.Client`
(no retry wrapper and no timeout/rate-limit classification of the `Do`
error) and then reads the SSE stream with a loop that is character-for-
character identical to `GrokModel.Send`'s, so the loop is embedded once
as `grokLoop` and the decoded stream reuses `GrokEvent`. -/

/-- Outcome of the GPT request phase before the stream is read:
`json.Marshal`, `http.NewRequestWithContext`, `client.Do` and the
status-code check of gpt.go. -/
inductive GPTPre
  | ok
  | marshalErr
  | reqErr
  | doErr (msg : Str)
  | badStatus (code : Nat) (body : Str)

def gptMarshalMsg : Str := ("marshal" : String).toList

def gptReqMsg : Str := ("request" : String).toList

structure GPTInput where
  pre : GPTPre
  events : List GrokEvent

/-- The chunk sequence emitted by `GPTModel.Send`; each failing request
phase emits one error chunk and returns, the stream is read by the
shared SSE loop. -/
def gptSend (inp : GPTInput) : List Chunk :=
  match inp.pre with
  | .ok => grokLoop inp.events []
  | .marshalErr => [{ error := some gptMarshalMsg }]
  | .reqErr => [{ error := some gptReqMsg }]
  | .doErr m => [{ error := some m }]
  | .badStatus code body => [{ error := some (grokStatusMsg code body) }]

/-! ## Orchestrator (`internal/orchestrator/orchestrator.go`) -/

/-- Go `ErrTimeout` of orchestrator.go. -/
def ErrTimeout : Str := ("model response timed out" : String).toList

/-- Go `Response` of orchestrator.go. -/
structure Response where
  modelID : String
  content : Str := []
  error : Option Str := none
  done : Bool := false
  isTimeout : Bool := false
deriving DecidableEq

/-- One observable step of the worker's `select` loop: the per-backend
deadline fired, the chunk channel closed, or a chunk arrived
(`ctxExpired` records whether `timeoutCtx.Err()` was already
`DeadlineExceeded` at that moment). -/
inductive WorkerEvent
  | deadline
  | closed
  | chunk (c : Chunk) (ctxExpired : Bool)

/-- Responses a worker forwarded to the shared channel, and the status
write the worker ITSELF performed on its backend (`none` when it made
none).  This write is transient, not the backend's final status: the
adapter's `Send` goroutine runs `defer m.SetStatus(StatusIdle)` on exit
(claude.go, gemini.go, gpt.go, grok.go), overwriting it once the
cancelled goroutine winds down, and at the debate level the UI's
done-handling overwrites it too (see `uiStatusStep`). -/
structure WorkerResult where
  responses : List Response
  statusSet : Option ModelStatus
deriving DecidableEq

def timeoutResponse (id : String) : Response :=
  { modelID := id, error := some ErrTimeout, done := true, isTimeout := true }

def doneResponse (id : String) : Response := { modelID := id, done := true }

/-- Go `Orchestrator.sendWithTimeout`, as a function of the worker's event
trace; `got` is `gotResponse`. -/
def sendWithTimeout (id : String) : List WorkerEvent → Bool → WorkerResult
  | [], _ => ⟨[], none⟩
  | .deadline :: _, _ => ⟨[timeoutResponse id], some .timeout⟩
  | .closed :: _, got => ⟨if got then [doneResponse id] else [], none⟩
  | .chunk c ctxExp :: rest, got =>
    match c.error with
    | some e =>
      if c.isTimeout || ctxExp then ⟨[timeoutResponse id], some .timeout⟩
      else ⟨[{ modelID := id, error := some e, done := true }], some .error⟩
    | none =>
      let outs : List Response := if c.text ≠ [] then [{ modelID := id, content := c.text }] else []
      if c.done then ⟨outs ++ [doneResponse id], some .idle⟩
      else
        let r := sendWithTimeout id rest (got || decide (c.text ≠ []))
        ⟨outs ++ r.responses, r.statusSet⟩

/-- Go `Orchestrator.ParallelSeed`: one worker per enabled backend, each
running `sendWithTimeout` on its own trace. -/
def ParallelSeed (workers : List (String × List WorkerEvent)) : List WorkerResult :=
  workers.map (fun w => sendWithTimeout w.1 w.2 false)

/-! ## Registry (`internal/models/registry.go`, config from
`internal/config/config.go`) -/

/-- Go `ModelConfig` of config.go. -/
structure ModelConfig where
  Enabled : Bool
  CLIPath : String
  APIKey : String
  DefaultModel : String

/-- The `Models` block of `Config`. -/
structure Config where
  Claude : ModelConfig
  Gemini : ModelConfig
  GPT : ModelConfig
  Grok : ModelConfig

/-- Go `ModelInfo` produced by `NewClaude`. -/
def claudeInfo : ModelInfo := ⟨"claude", "Claude", "#00FFFF", true, true⟩

/-- Go `ModelInfo` produced by `NewGemini`. -/
def geminiInfo : ModelInfo := ⟨"gemini", "Gemini", "#FF00FF", false, true⟩

/-- Go `ModelInfo` produced by `NewGPT`. -/
def gptInfo : ModelInfo := ⟨"gpt", "GPT", "#00FF00", false, true⟩

/-- Go `ModelInfo` produced by `NewGrok`. -/
def grokInfo : ModelInfo := ⟨"grok", "Grok", "#FFA500", false, true⟩

/-- Go `Registry`: the id-keyed map and the `order` slice, combined as an
ordered association list (ids are pairwise distinct by construction). -/
structure Registry where
  entries : List (String × ModelInfo)

/-- Go `NewRegistry` of registry.go. -/
def NewRegistry (cfg : Config) : Registry :=
  { entries :=
      (if cfg.Claude.Enabled then [("claude", claudeInfo)] else []) ++
      (if cfg.Gemini.Enabled then [("gemini", geminiInfo)] else []) ++
      (if cfg.GPT.Enabled ∧ cfg.GPT.APIKey ≠ "" then [("gpt", gptInfo)] else []) ++
      (if cfg.Grok.Enabled ∧ cfg.Grok.APIKey ≠ "" then [("grok", grokInfo)] else []) }

/-- Go `Registry.Get`: `nil` for an absent id becomes `none`. -/
def Registry.get (r : Registry) (id : String) : Option ModelInfo :=
  r.entries.lookup id

/-- Go `Registry.Enabled`: the `order` slice. -/
def Registry.enabledIds (r : Registry) : List String := r.entries.map Prod.fst

/-- Number of registered backends advertising `CanExec`. -/
def Registry.countExec (r : Registry) : Nat :=
  r.entries.countP (fun e => e.2.CanExec)

/-! ## UI debate state (`internal/ui/app.go`, `debate.go`) -/

/-- Go `DebateMessage` of debate.go (timestamp omitted; no claim uses it). -/
structure DebateMessage where
  source : String
  content : Str
deriving DecidableEq

/-- The backward scan of `checkDebateConsensus` for the last `user`
message: `some suffix` is the message list after it. -/
def afterLastUser (msgs : List DebateMessage) : Option (List DebateMessage) :=
  msgs.foldl
    (fun acc m => if m.source = "user" then some [] else acc.map (fun l => l ++ [m])) none

/-- Go `positions[msg.Source] = parsed` on the assoc-list model of the Go
map (last write wins, first-insertion order preserved). -/
def upsert (key : String) (v : ParsedPosition) :
    List (String × ParsedPosition) → List (String × ParsedPosition)
  | [] => [(key, v)]
  | (k, w) :: rest => if k = key then (k, v) :: rest else (k, w) :: upsert key v rest

/-- The position-collecting loop of `checkDebateConsensus`. -/
def collectPositions (suffix : List DebateMessage) : List (String × ParsedPosition) :=
  suffix.foldl
    (fun ps m =>
      if m.source = "system" || m.source = "user" then ps
      else upsert m.source (ParseResponse m.content) ps) []

/-- Go `Model.checkDebateConsensus` of app.go. -/
def checkDebateConsensus (msgs : List DebateMessage) : ConsensusResult :=
  if msgs.length = 0 then emptyResult
  else
    match afterLastUser msgs with
    | none => emptyResult
    | some suffix => AnalyzeConsensus (collectPositions suffix)

/-! ## Execution gate (`internal/ui/app.go`, `commands.Execute` case) -/

def cannotExecuteMsg : Str :=
  ("Cannot execute: consensus not reached. Use /consensus to check positions." : String).toList

def executionRequestedMsg : Str :=
  ("Execution requested. Sending to Claude for implementation..." : String).toList

/-- Observable outcome of handling `/execute`: the `system` messages
appended to the debate, and the backends a `Send` was dispatched to. -/
structure ExecOutcome where
  systemMessages : List Str
  dispatched : List String
deriving DecidableEq

/-- Go `Orchestrator.SendToModel` as seen by the gate: an unknown id gives
an immediately-closed channel and no `Send` call; a known id receives
exactly one `Send`. -/
def SendToModel (r : Registry) (modelID : String) : List String :=
  match r.get modelID with
  | none => []
  | some _ => [modelID]

/-- Go `Model.dispatchExecutionToClaude`: sends only to the fixed id. -/
def dispatchExecutionToClaude (r : Registry) : List String := SendToModel r "claude"

/-- The `commands.Execute` case of `handleCommand`: `debate := m.activeDebate()`
may be absent; only the consensus check gates the dispatch. -/
def handleExecute (debate : Option (List DebateMessage)) (r : Registry) : ExecOutcome :=
  match debate with
  | none => ⟨[], []⟩
  | some msgs =>
    if (checkDebateConsensus msgs).HasConsensus then
      ⟨[executionRequestedMsg], dispatchExecutionToClaude r⟩
    else ⟨[cannotExecuteMsg], []⟩

/-! ## Streaming assembly (`modelResponseMsg` case of `Update`, app.go)

State for a single model id: `streaming` is the open streaming message
(`m.streamingMsgs` entry plus the message it indexes), `sealed` the
contents saved to the store as `model` messages, `errors` the error
messages recorded. -/

structure UiState where
  streaming : Option Str
  sealed : List Str
  errors : List Str
deriving DecidableEq

/-- Processing of one `modelResponseMsg` for the model: the error and
content branches, then the independent `if msg.done` sealing block. -/
def uiStep (st : UiState) (r : Response) : UiState :=
  let st1 :=
    match r.error with
    | some e => { st with errors := st.errors ++ [e] }
    | none =>
      if r.content ≠ [] then { st with streaming := some ((st.streaming.getD []) ++ r.content) }
      else st
  if r.done then
    match st1.streaming with
    | some c => { st1 with sealed := st1.sealed ++ [c], streaming := none }
    | none => st1
  else st1

def uiRun (rs : List Response) : UiState := rs.foldl uiStep ⟨none, [], []⟩

/-- The sealed `model` message contents after a run. -/
def uiSealed (rs : List Response) : List Str := (uiRun rs).sealed

/-- The debate-state model-status writes of the `modelResponseMsg` case
of `Update`, split from the streaming assembly (the two never read each
other's state): the error branch sets timeout or error — through the
`Debate.UpdateModelStatus` helper, whose body is not among the sources
and is modelled from the spec: §4.5 step 1, "set that model's status to
`timeout` or `error`" — a non-empty content response sets `responding`,
and the `if msg.done` block then unconditionally sets `idle`.  Since
the worker's timeout response carries `done = true`, it ends this step
with `idle`, not `timeout`. -/
def uiStatusStep (st : ModelStatus) (r : Response) : ModelStatus :=
  let st1 :=
    match r.error with
    | some _ => if r.isTimeout then ModelStatus.timeout else ModelStatus.error
    | none => if r.content ≠ [] then ModelStatus.responding else st
  if r.done then ModelStatus.idle else st1

/-- The status a sequence of `SetStatus` writes leaves on a backend
object: the last write wins (each write replaces the field,
model.go `BaseModel.SetStatus`). -/
def lastWrite (init : ModelStatus) (writes : List ModelStatus) : ModelStatus :=
  writes.foldl (fun _ w => w) init

/-- The `SetStatus` writes the adapter's own `Send` goroutine brackets a
run with: `StatusResponding` on entry and the deferred `StatusIdle` on
goroutine exit (claude.go, gemini.go, gpt.go, grok.go all install
`defer m.SetStatus(StatusIdle)` right after it).  Any write made in
between — such as the worker's `StatusTimeout` — sits in the middle of
this bracket. -/
def sendStatusEntry : ModelStatus := ModelStatus.responding

def sendStatusDeferredExit : ModelStatus := ModelStatus.idle

/-- A chunk stream turned into the worker's event trace: each chunk is
received in order, the deadline never fires, and the channel closes at
the end. -/
def chunkEvents (cs : List Chunk) : List WorkerEvent :=
  cs.map (fun c => .chunk c false) ++ [.closed]

/-- Concatenation of the `text` fields of a chunk sequence, in order. -/
def chunkTexts (cs : List Chunk) : Str := (cs.map Chunk.text).flatten

/-- End-to-end pipeline for one Grok run: adapter chunks, the
orchestrator worker, then the UI streaming assembly. -/
def grokPipelineSealed (inp : GrokInput) : List Str :=
  uiSealed (sendWithTimeout "grok" (chunkEvents (grokSend inp)) false).responses

/-- A plain streaming run: one SSE delta per frame, then
`finish_reason = "stop"`. -/
def mkGrokStream (deltas : List Str) : GrokInput :=
  ⟨.ok, deltas.map (fun d => .choice ⟨d, false⟩) ++ [.choice ⟨[], true⟩]⟩

/-! ## Persistence store (`internal/db/store.go`)

Rows of the `debates` and `messages` tables; `AUTOINCREMENT` is the
`nextMsgId` counter, `CURRENT_TIMESTAMP` a logical clock.  The embedded
engine's durability is modelled by `closeReopen` preserving the rows
(`migrate` only runs `CREATE … IF NOT EXISTS`, a no-op on an existing
schema). -/

structure DebateRow where
  id : String
  name : String
  projectPath : String
  status : String
  consensus : String
  createdAt : Nat
  updatedAt : Nat
deriving DecidableEq

structure MessageRow where
  id : Nat
  debateID : String
  source : String
  content : Str
  msgType : String
deriving DecidableEq

structure Store where
  debates : List DebateRow
  messages : List MessageRow
  nextMsgId : Nat
  clock : Nat
deriving DecidableEq

/-- A freshly created store file (after `migrate`). -/
def openEmptyStore : Store := ⟨[], [], 1, 0⟩

/-- Go `Store.CreateDebate`; the `id` primary key rejects duplicates. -/
def CreateDebate (s : Store) (id name projectPath : String) : Except Str Store :=
  if s.debates.any (fun d => d.id = id) then
    .error ("UNIQUE constraint failed: debates.id" : String).toList
  else
    .ok { s with
          debates := s.debates ++ [⟨id, name, projectPath, "active", "", s.clock, s.clock⟩]
          clock := s.clock + 1 }

/-- Go `Store.AddMessage`: insert the row, bump the debate's `updated_at`,
return `LastInsertId`. -/
def AddMessage (s : Store) (debateID source : String) (content : Str) (msgType : String) :
    Store × Nat :=
  ({ s with
     messages := s.messages ++ [⟨s.nextMsgId, debateID, source, content, msgType⟩]
     nextMsgId := s.nextMsgId + 1
     debates := s.debates.map
       (fun d => if d.id = debateID then { d with updatedAt := s.clock } else d)
     clock := s.clock + 1 }, s.nextMsgId)

/-- Go `Store.GetMessages`: rows with the debate id, `ORDER BY id`. -/
def GetMessages (s : Store) (debateID : String) : List MessageRow :=
  (s.messages.filter (fun m => m.debateID = debateID)).insertionSort
    (fun a b => a.id ≤ b.id)

/-- Go `Store.Close` followed by `Open` on the same file: the committed
rows persist (WAL journaling; `migrate` is idempotent). -/
def closeReopen (s : Store) : Store := s

/-! ## Context-file loader (`internal/context/loader.go`)

`filepath.Clean` / `filepath.Abs` on slash-separated paths, and the
filesystem as a finite map from absolute paths to stat info. -/

/-- Split a path on `/`. -/
def splitSlash : Str → List Str
  | [] => [[]]
  | c :: rest =>
    if c = '/' then [] :: splitSlash rest
    else
      match splitSlash rest with
      | [] => [[c]]
      | p :: ps => (c :: p) :: ps

/-- Join path elements with `/`. -/
def joinSlash : List Str → Str
  | [] => []
  | [x] => x
  | x :: xs => x ++ '/' :: joinSlash xs

/-- One step of `filepath.Clean`'s element processing (`stack` holds the
output elements in reverse). -/
def cleanStep (rooted : Bool) (stack : List Str) (part : Str) : List Str :=
  if part = [] ∨ part = ['.'] then stack
  else if part = ['.', '.'] then
    match stack with
    | top :: rest => if top ≠ ['.', '.'] then rest else ['.', '.'] :: top :: rest
    | [] => if rooted then [] else [['.', '.']]
  else part :: stack

/-- Go `filepath.Clean` on slash-separated paths. -/
def goClean (p : Str) : Str :=
  if p = [] then ['.']
  else
    let rooted := p.head? = some '/'
    let stack := (splitSlash p).foldl (cleanStep rooted) []
    let body := joinSlash stack.reverse
    if rooted then '/' :: body
    else if body = [] then ['.']
    else body

/-- Go `filepath.Abs`: clean an absolute path, else resolve against the
working directory (itself absolute) and clean. -/
def goAbs (cwd p : Str) : Str :=
  if p.head? = some '/' then goClean p else goClean (cwd ++ '/' :: p)

/-- Stat info of a filesystem entry. -/
structure FileNode where
  isDir : Bool
  size : Nat
  content : Str

/-- The filesystem: a finite map from absolute paths to entries. -/
abbrev FS := List (Str × FileNode)

/-- Go `os.Stat` on the modelled filesystem. -/
def statFS : FS → Str → Option FileNode
  | [], _ => none
  | (q, n) :: rest, p => if q = p then some n else statFS rest p

/-- The `sensitive` denylist of `isSensitivePath`. -/
def sensitiveList : List Str :=
  [("/.ssh/" : String).toList, ("/.gnupg/" : String).toList, ("/.aws/" : String).toList,
   ("/.config/gcloud" : String).toList, ("/etc/shadow" : String).toList,
   ("/etc/passwd" : String).toList, ("/.netrc" : String).toList,
   ("/.npmrc" : String).toList, ("/.pypirc" : String).toList,
   ("/credentials" : String).toList, ("/secrets" : String).toList,
   ("/.env" : String).toList, (".pem" : String).toList, (".key" : String).toList,
   ("id_rsa" : String).toList, ("id_ed25519" : String).toList,
   ("id_ecdsa" : String).toList, ("id_dsa" : String).toList]

/-- Go `isSensitivePath` of loader.go. -/
def isSensitivePath (p : Str) : Bool :=
  sensitiveList.any (fun s => containsSub (lowerStr s) (lowerStr p))

def traversalMsg : Str := ("path traversal not allowed" : String).toList

def notExistMsg (p : Str) : Str := ("path does not exist: " : String).toList ++ p

def cannotAccessMsg : Str := ("cannot access path" : String).toList

def sensitiveMsg : Str := ("access to sensitive path denied" : String).toList

def statFailMsg : Str := ("failed to stat file" : String).toList

def isDirMsg : Str := ("path is a directory, use SummarizeDir instead" : String).toList

def tooLargeMsg : Str := ("file too large" : String).toList

/-- Go `MaxFileSize` of loader.go (1 MiB). -/
def MaxFileSize : Nat := 1024 * 1024

/-- Go `ValidatePath` of loader.go. -/
def ValidatePath (fs : FS) (cwd p : Str) : Except Str Unit :=
  let absP := goAbs cwd p
  let cleanP := goClean absP
  if cleanP ≠ absP ∧ containsSub ['.', '.'] p then .error traversalMsg
  else
    match statFS fs absP with
    | none => .error (notExistMsg absP)
    | some _ => if isSensitivePath absP then .error sensitiveMsg else .ok ()

/-- Go `LoadFile` of loader.go: resolve, validate, stat, check directory
and size, then read. -/
def LoadFile (fs : FS) (cwd p : Str) : Except Str Str :=
  let absP := goAbs cwd p
  match ValidatePath fs cwd absP with
  | .error e => .error e
  | .ok _ =>
    match statFS fs absP with
    | none => .error statFailMsg
    | some info =>
      if info.isDir then .error isDirMsg
      else if MaxFileSize < info.size then .error tooLargeMsg
      else .ok info.content

/-! ## Helper lemmas -/

lemma foldl_analyzeStep_agree (ps : List (String × ParsedPosition)) :
    ∀ acc : AnalyzeAcc, (ps.foldl analyzeStep acc).agree = acc.agree + countKind .agree ps := by
  induction ps with
  | nil => intro acc; simp [countKind]
  | cons p ps ih =>
    intro acc
    rw [List.foldl_cons, ih]
    rcases p with ⟨k, ⟨pos, t, r, q, raw⟩⟩
    cases pos <;> simp [analyzeStep, countKind, List.countP_cons] <;> omega

lemma foldl_analyzeStep_object (ps : List (String × ParsedPosition)) :
    ∀ acc : AnalyzeAcc, (ps.foldl analyzeStep acc).object = acc.object + countKind .object ps := by
  induction ps with
  | nil => intro acc; simp [countKind]
  | cons p ps ih =>
    intro acc
    rw [List.foldl_cons, ih]
    rcases p with ⟨k, ⟨pos, t, r, q, raw⟩⟩
    cases pos <;> simp [analyzeStep, countKind, List.countP_cons] <;> omega

/-! The claims.  Each claim of the specification is settled by one
theorem below (plus, where the claim fails on the code, a concrete
counterexample theorem). -/

/-- Claim C1: For every map of parsed positions given to `AnalyzeConsensus`,
the result has `HasConsensus = true` iff the number of `agree` positions
is at least `⌊total/2⌋ + 1` and the number of `object` positions is
zero; `add` positions are neutral and `unknown` positions count only
toward the total (the verdict depends on nothing but the agree count,
the object count and the total). -/
theorem c1_analyzeConsensus_majority_no_objection
    (positions : List (String × ParsedPosition)) :
    (AnalyzeConsensus positions).HasConsensus =
      (decide (positions.length / 2 + 1 ≤ countKind .agree positions) &&
       decide (countKind .object positions = 0))
    ∧ (AnalyzeConsensus positions).TotalCount = positions.length := by
  constructor
  · unfold AnalyzeConsensus
    by_cases h : positions.length = 0
    · rcases List.length_eq_zero.mp h with rfl
      simp [emptyResult, countKind]
    · simp only [if_neg h]
      unfold analyzeLoop
      rw [foldl_analyzeStep_agree, foldl_analyzeStep_object]
      simp [emptyAcc]
  · unfold AnalyzeConsensus
    by_cases h : positions.length = 0
    · simp [h, emptyResult]
    · simp [h]

/-- Claim C3, counterexample: the backend's status does not end up as
`timeout`.  The deadline makes the worker emit the single done-flagged
timeout response, but feeding that very response stream into the UI's
status handling leaves the debate's model status `idle` (the
`if msg.done` block overwrites the `timeout` just written), and on the
backend object itself the adapter's deferred `StatusIdle` exit write,
which runs once the cancelled `Send` goroutine winds down, overwrites
the worker's `StatusTimeout` as well. -/
theorem c3_status_overwrite_counterexample :
    (sendWithTimeout "slow" [WorkerEvent.deadline] false).responses = [timeoutResponse "slow"]
    ∧ (sendWithTimeout "slow" [WorkerEvent.deadline] false).responses.foldl uiStatusStep
        sendStatusEntry = ModelStatus.idle
    ∧ lastWrite ModelStatus.idle
        (sendStatusEntry :: ModelStatus.timeout :: [sendStatusDeferredExit]) = ModelStatus.idle
    ∧ ModelStatus.idle ≠ ModelStatus.timeout := by
  refine ⟨rfl, rfl, rfl, by decide⟩

/-- Claim C3, amended: in `ParallelSeed`, a worker whose per-backend
deadline expires emits exactly one terminal response with `done = true`,
`error = ErrTimeout` and `isTimeout = true`, writes `timeout` to that
backend's status at that moment, and the other workers' results are
unaffected.  That status write is transient, however: the claim's
"ends up as timeout" fails, because processing the (done-flagged)
timeout response through the `Update` handler leaves the debate's model
status `idle` from any prior status, and any sequence of status writes
that ends with the adapter's deferred `StatusIdle` exit write leaves
the backend object `idle` as well. -/
theorem c3_deadline_timeout_amended (id : String) (evs : List WorkerEvent)
    (ws1 ws2 : List (String × List WorkerEvent)) (st : ModelStatus)
    (mid : List ModelStatus) :
    sendWithTimeout id (.deadline :: evs) false =
      ⟨[timeoutResponse id], some ModelStatus.timeout⟩
    ∧ (timeoutResponse id).done = true
    ∧ (timeoutResponse id).error = some ErrTimeout
    ∧ (timeoutResponse id).isTimeout = true
    ∧ ParallelSeed (ws1 ++ (id, .deadline :: evs) :: ws2) =
        ParallelSeed ws1 ++ ⟨[timeoutResponse id], some ModelStatus.timeout⟩ :: ParallelSeed ws2
    ∧ uiStatusStep st (timeoutResponse id) = ModelStatus.idle
    ∧ lastWrite st (sendStatusEntry :: (mid ++ [sendStatusDeferredExit])) = ModelStatus.idle := by
  refine ⟨rfl, rfl, rfl, rfl, ?_, rfl, ?_⟩
  · simp [ParallelSeed, sendWithTimeout]
  · unfold lastWrite sendStatusEntry sendStatusDeferredExit
    rw [List.foldl_cons, List.foldl_append]
    simp

/-- Claim C8: For every configuration, the registry built by `NewRegistry`
contains at most one model whose `ModelInfo` has `CanExec = true`: only
`NewClaude` sets it, and at most one Claude backend is registered. -/
theorem c8_at_most_one_executor (cfg : Config) :
    (NewRegistry cfg).countExec ≤ 1 := by
  unfold NewRegistry Registry.countExec
  split_ifs <;>
    simp [claudeInfo, geminiInfo, gptInfo, grokInfo,
      List.countP_append, List.countP_cons]

/-- Claim C9: `ParseResponse` checks the explicit case-insensitive markers
`AGREE:`, `OBJECT:`, `ADD:` — in that order, before any keyword
heuristic — returning `agree` with the (optionally bracketed) captured
name as target, `object` with the captured reason, `add` with the
captured point; only with no marker does it fall back to the keyword
heuristics, and with neither it returns `unknown`. -/
theorem c9_parseResponse_marker_priority (content : Str) :
    (ParseResponse content).position =
      (if (findAgree content).isSome then Position.agree
       else if (findObject content).isSome then Position.object
       else if (findAdd content).isSome then Position.add
       else if hasKeyword agreeKeywords (lowerStr content) then Position.agree
       else if hasKeyword objectKeywords (lowerStr content) then Position.object
       else if hasKeyword addKeywords (lowerStr content) then Position.add
       else Position.unknown)
    ∧ (ParseResponse content).target = ((findAgree content).map trimSpace).getD []
    ∧ (ParseResponse content).reason =
        (if (findAgree content).isSome then []
         else ((findObject content).map trimSpace).getD [])
    ∧ (ParseResponse content).point =
        (if (findAgree content).isSome || (findObject content).isSome then []
         else ((findAdd content).map trimSpace).getD [])
    ∧ (ParseResponse content).rawContent = content := by
  unfold ParseResponse
  rcases hA : findAgree content with _ | t
  · rcases hO : findObject content with _ | r
    · rcases hD : findAdd content with _ | q
      · simp only [hA, hO, hD]
        split_ifs <;> simp_all
      · simp [hA, hO, hD]
    · simp [hA, hO]
  · simp [hA]

/-- A configuration enabling only the Claude backend (executor present). -/
def cfgClaudeOnly : Config :=
  ⟨⟨true, "claude", "", "opus"⟩, ⟨false, "", "", ""⟩, ⟨false, "", "", ""⟩, ⟨false, "", "", ""⟩⟩

/-- A configuration with the executor disabled and only Gemini enabled:
no registered backend has `CanExec = true`. -/
def cfgNoExecutor : Config :=
  ⟨⟨false, "", "", ""⟩, ⟨true, "gemini", "", ""⟩, ⟨false, "", "", ""⟩, ⟨false, "", "", ""⟩⟩

/-- A latest round with two explicit AGREEs and no objection. -/
def consensusRound : List DebateMessage :=
  [⟨"user", ("q" : String).toList⟩,
   ⟨"claude", ("AGREE: [gpt] yes" : String).toList⟩,
   ⟨"gpt", ("AGREE: [claude] yes" : String).toList⟩]

/-- Claim C2, counterexample: The claim fails on two of its three
preconditions.  With no active debate (`debate = nil`, precondition 1
fails) the handler appends no system message at all.  With consensus
reached but no executor backend registered (precondition 3 fails) the
handler appends `"Execution requested. Sending to Claude for
implementation..."` — not a message explaining a failed precondition —
and dispatches nothing; the executor-uniqueness precondition is never
checked. -/
theorem c2_execute_gate_counterexample :
    handleExecute none (NewRegistry cfgClaudeOnly) = ⟨[], []⟩
    ∧ (checkDebateConsensus consensusRound).HasConsensus = true
    ∧ handleExecute (some consensusRound) (NewRegistry cfgNoExecutor) =
        ⟨[executionRequestedMsg], []⟩ := by
  refine ⟨rfl, by decide, by decide⟩

/-- Claim C2, amended: When `Execute` is handled: with no active debate,
nothing is appended and no call is made; with a debate whose latest
round lacks consensus, the system message `cannotExecuteMsg` is appended
and no call is made; with consensus, the system message
`executionRequestedMsg` is appended and a single `send_to` goes to the
hardcoded id `"claude"` when registered (otherwise none) — the
executor-uniqueness precondition is not checked.  In every case at most
one dispatch happens, and only ever to `"claude"`. -/
theorem c2_execute_gate_amended (debate : Option (List DebateMessage)) (r : Registry) :
    handleExecute debate r =
      (match debate with
       | none => ⟨[], []⟩
       | some msgs =>
         if (checkDebateConsensus msgs).HasConsensus then
           ⟨[executionRequestedMsg], if (r.get "claude").isSome then ["claude"] else []⟩
         else ⟨[cannotExecuteMsg], []⟩)
    ∧ (handleExecute debate r).dispatched.length ≤ 1
    ∧ (handleExecute debate r).dispatched.all (fun i => i = "claude") = true := by
  rcases debate with _ | msgs
  · exact ⟨rfl, by simp [handleExecute], by simp [handleExecute]⟩
  · by_cases h : (checkDebateConsensus msgs).HasConsensus = true
    · rcases hg : Registry.get r "claude" with _ | info <;>
        simp [handleExecute, h, dispatchExecutionToClaude, SendToModel, hg]
    · simp [handleExecute, h]

/-- Run of `ClaudeModel.Send` whose stdout is the normal single
`result` line of `--output-format json` with a non-empty result. -/
def claudeResultRun : ClaudeInput :=
  ⟨false, false, [.line (.resultEvent (some ("ok" : String).toList) false)], false⟩

/-- Claim C4, counterexample: On a normal Claude run the `result` line
yields a terminal chunk `{Text := "ok", Done := true}` and, because the
scan loop does not return there, the epilogue emits a second
`{Done := true}`: two terminal chunks in one `Send`, not exactly one. -/
theorem c4_two_terminals_counterexample :
    (claudeSend claudeResultRun).countP terminalChunk = 2 := by decide

lemma getLast?_any_cons {α : Type} (p : α → Bool) (c : α) (l : List α)
    (h : l.getLast?.any p = true) : (c :: l).getLast?.any p = true := by
  cases l with
  | nil => simp at h
  | cons x xs => rw [List.getLast?_cons_cons]; exact h

lemma one_le_countP_of_getLast?_any {α : Type} (p : α → Bool) (l : List α)
    (h : l.getLast?.any p = true) : 1 ≤ l.countP p := by
  cases hl : l.getLast? with
  | none => rw [hl] at h; simp at h
  | some a =>
    rw [hl] at h
    simp only [Option.any_some] at h
    have ha : a ∈ l := List.mem_of_mem_getLast? (by rw [hl]; rfl)
    have := List.countP_pos_iff.mpr ⟨a, ha, h⟩
    omega

lemma claudeLoop_last_terminal (steps : List ClaudeStep) :
    ∀ got stderrNE : Bool, (claudeLoop steps got stderrNE).getLast?.any terminalChunk = true := by
  induction steps with
  | nil =>
    intro got stderrNE
    unfold claudeLoop
    split_ifs <;> simp [terminalChunk]
  | cons s rest ih =>
    intro got stderrNE
    cases s with
    | cancelled => simp [claudeLoop, terminalChunk]
    | line e =>
      rcases he : parseClaudeLine e with _ | c <;> simp only [claudeLoop, he]
      · exact ih _ _
      · exact getLast?_any_cons _ c _ (ih _ _)

lemma geminiLoop_last_terminal (steps : List GeminiStep) :
    ∀ acc : Str, (geminiLoop steps acc).getLast?.any terminalChunk = true := by
  induction steps with
  | nil => intro acc; simp [geminiLoop, terminalChunk]
  | cons s rest ih =>
    intro acc
    cases s with
    | cancelled => simp [geminiLoop, terminalChunk]
    | line e =>
      rcases he : parseGeminiLine e with _ | c <;> simp only [geminiLoop, he]
      · exact ih _
      · exact getLast?_any_cons _ c _ (ih _)

lemma grokLoop_terminal (events : List GrokEvent) :
    ∀ acc : Str, (grokLoop events acc).countP terminalChunk = 1
      ∧ (grokLoop events acc).getLast?.any terminalChunk = true := by
  induction events with
  | nil => intro acc; simp [grokLoop, terminalChunk]
  | cons e rest ih =>
    intro acc
    cases e with
    | ctxDone => simp [grokLoop, terminalChunk]
    | readErr m => simp [grokLoop, terminalChunk]
    | choice c =>
      have ih' := ih (acc ++ c.content)
      by_cases hf : c.finishStop = true
      · by_cases hc : c.content = [] <;>
          simp [grokLoop, hf, hc, terminalChunk, List.countP_cons]
      · by_cases hc : c.content = []
        · simpa [grokLoop, hf, hc, terminalChunk] using ih'
        · refine ⟨?_, ?_⟩
          · simpa [grokLoop, hf, hc, terminalChunk, List.countP_cons] using ih'.1
          · have h2 := ih'.2
            simp only [grokLoop, hf, hc, if_neg, ite_false, Bool.false_eq_true,
              not_false_eq_true, ne_eq, ite_true, List.cons_append, List.nil_append]
            exact getLast?_any_cons _ _ _ h2

/-- Claim C4, amended: Every `Send` chunk sequence — of all four
adapters — ends with a terminal chunk (so at least one terminal chunk
is emitted), and for the two SSE adapters (Grok, GPT) there is exactly
one; the subprocess adapters (Claude, Gemini) may emit more than one
terminal chunk in a run, as the counterexample shows, since their scan
loops keep going after a `result` event and always append a trailing
`{Done := true}`. -/
theorem c4_terminal_chunks_amended (ci : ClaudeInput) (gi : GeminiInput) (ki : GrokInput)
    (pi : GPTInput) :
    ((claudeSend ci).getLast?.any terminalChunk = true
      ∧ 1 ≤ (claudeSend ci).countP terminalChunk)
    ∧ ((geminiSend gi).getLast?.any terminalChunk = true
      ∧ 1 ≤ (geminiSend gi).countP terminalChunk)
    ∧ ((grokSend ki).getLast?.any terminalChunk = true
      ∧ (grokSend ki).countP terminalChunk = 1)
    ∧ ((gptSend pi).getLast?.any terminalChunk = true
      ∧ (gptSend pi).countP terminalChunk = 1) := by
  refine ⟨⟨?_, ?_⟩, ⟨?_, ?_⟩, ⟨?_, ?_⟩, ?_, ?_⟩
  · unfold claudeSend
    split_ifs <;> first
      | simp [terminalChunk]
      | exact claudeLoop_last_terminal _ _ _
  · apply one_le_countP_of_getLast?_any
    unfold claudeSend
    split_ifs <;> first
      | simp [terminalChunk]
      | exact claudeLoop_last_terminal _ _ _
  · unfold geminiSend
    split_ifs <;> first
      | simp [terminalChunk]
      | exact geminiLoop_last_terminal _ _
  · apply one_le_countP_of_getLast?_any
    unfold geminiSend
    split_ifs <;> first
      | simp [terminalChunk]
      | exact geminiLoop_last_terminal _ _
  · rcases ki with ⟨pre, events⟩
    cases pre <;> simp [grokSend, terminalChunk, (grokLoop_terminal events []).2]
  · rcases ki with ⟨pre, events⟩
    cases pre <;> simp [grokSend, terminalChunk, (grokLoop_terminal events []).1]
  · rcases pi with ⟨pre, events⟩
    cases pre <;> simp [gptSend, terminalChunk, (grokLoop_terminal events []).2]
  · rcases pi with ⟨pre, events⟩
    cases pre <;> simp [gptSend, terminalChunk, (grokLoop_terminal events []).1]

/-- Non-empty test on strings, kept as a named predicate so that simp
normal forms do not rewrite it. -/
def strNonEmpty (d : Str) : Bool := !d.isEmpty

lemma strNonEmpty_iff (d : Str) : strNonEmpty d = true ↔ d ≠ [] := by
  cases d <;> simp [strNonEmpty]

lemma grok_stream_chunks (deltas : List Str) :
    ∀ acc : Str,
      grokLoop (deltas.map (fun d => GrokEvent.choice ⟨d, false⟩) ++ [GrokEvent.choice ⟨[], true⟩]) acc
        = (deltas.filter strNonEmpty).map (fun d => ({ text := d } : Chunk))
          ++ [{ text := acc ++ deltas.flatten, done := true }] := by
  induction deltas with
  | nil => intro acc; simp [grokLoop]
  | cons d ds ih =>
    intro acc
    by_cases hd : d = []
    · simp [grokLoop, hd, ih, strNonEmpty]
    · simp [grokLoop, hd, ih, strNonEmpty, List.isEmpty_iff, List.append_assoc]

lemma sendWT_text_events (id : String) (T : Str) :
    ∀ (ds : List Str) (got : Bool),
      sendWithTimeout id
        (ds.map (fun d => WorkerEvent.chunk { text := d } false)
          ++ [WorkerEvent.chunk { text := T, done := true } false, WorkerEvent.closed]) got
      = ⟨(ds.filter strNonEmpty).map (fun d => { modelID := id, content := d })
          ++ (if strNonEmpty T then [({ modelID := id, content := T } : Response)] else [])
          ++ [doneResponse id], some .idle⟩ := by
  intro ds
  induction ds with
  | nil =>
    intro got
    by_cases hT : T = [] <;> simp [sendWithTimeout, hT, strNonEmpty, List.isEmpty_iff]
  | cons d ds ih =>
    intro got
    by_cases hd : d = []
    · simp [sendWithTimeout, hd, ih, strNonEmpty]
    · simp [sendWithTimeout, hd, ih, strNonEmpty, List.isEmpty_iff]

lemma chunkEvents_text_chunks (ds : List Str) (T : Str) :
    chunkEvents ((ds.map fun d => ({ text := d } : Chunk)) ++ [{ text := T, done := true }])
      = ds.map (fun d => WorkerEvent.chunk { text := d } false)
        ++ [WorkerEvent.chunk { text := T, done := true } false, WorkerEvent.closed] := by
  simp [chunkEvents, Function.comp]

lemma ui_fold_contents (id : String) :
    ∀ (ds : List Str) (st : UiState), (∀ d ∈ ds, d ≠ []) →
      (ds.map (fun d => ({ modelID := id, content := d } : Response))).foldl uiStep st
      = if ds = [] then st
        else { st with streaming := some (st.streaming.getD [] ++ ds.flatten) } := by
  intro ds
  induction ds with
  | nil => intro st h; simp
  | cons d ds ih =>
    intro st h
    have hd : d ≠ [] := h d (by simp)
    have hds : ∀ x ∈ ds, x ≠ [] := fun x hx => h x (by simp [hx])
    rw [List.map_cons, List.foldl_cons]
    have hstep : uiStep st { modelID := id, content := d }
        = { st with streaming := some (st.streaming.getD [] ++ d) } := by
      simp [uiStep, hd]
    rw [hstep, ih _ hds]
    by_cases hds0 : ds = []
    · simp [hds0]
    · simp [hds0, List.append_assoc]

lemma flatten_filter_strNonEmpty (l : List Str) :
    (l.filter strNonEmpty).flatten = l.flatten := by
  induction l with
  | nil => rfl
  | cons d ds ih => by_cases hd : d = [] <;> simp [hd, ih, strNonEmpty, List.isEmpty_iff]

lemma filter_strNonEmpty_idem (l : List Str) :
    (l.filter strNonEmpty).filter strNonEmpty = l.filter strNonEmpty := by
  apply List.filter_eq_self.mpr
  intro a ha
  exact (List.mem_filter.mp ha).2

/-- Claim C5, amended: For a Grok SSE run, concatenating the `text`
fields of the emitted chunks, in order, does equal the final sealed
content of the single sealed model message (and nothing is sealed when
no text was produced).  But because the terminal chunk re-carries the
whole accumulated text, which the orchestrator forwards as one more
content response, that sealed content is the delta concatenation twice
— not once as the scenario in the claim expects. -/
theorem c5_streaming_concat_amended (deltas : List Str) :
    grokPipelineSealed (mkGrokStream deltas) =
      (if deltas.flatten = [] then []
       else [chunkTexts (grokSend (mkGrokStream deltas))])
    ∧ chunkTexts (grokSend (mkGrokStream deltas)) = deltas.flatten ++ deltas.flatten := by
  have hchunks : grokSend (mkGrokStream deltas)
      = (deltas.filter strNonEmpty).map (fun d => ({ text := d } : Chunk))
        ++ [{ text := deltas.flatten, done := true }] := by
    have h := grok_stream_chunks deltas []
    simpa [grokSend, mkGrokStream] using h
  have htexts : chunkTexts (grokSend (mkGrokStream deltas)) = deltas.flatten ++ deltas.flatten := by
    rw [hchunks]
    unfold chunkTexts
    simp [List.map_map, Function.comp_def, flatten_filter_strNonEmpty]
  have hresp : (sendWithTimeout "grok" (chunkEvents (grokSend (mkGrokStream deltas))) false).responses
      = (deltas.filter strNonEmpty).map (fun d => ({ modelID := "grok", content := d } : Response))
        ++ (if strNonEmpty deltas.flatten then
              [({ modelID := "grok", content := deltas.flatten } : Response)] else [])
        ++ [doneResponse "grok"] := by
    rw [hchunks, chunkEvents_text_chunks, sendWT_text_events, filter_strNonEmpty_idem]
  refine ⟨?_, htexts⟩
  unfold grokPipelineSealed uiSealed uiRun
  rw [hresp]
  by_cases hT : deltas.flatten = []
  · have hF : deltas.filter strNonEmpty = [] := by
      rw [List.filter_eq_nil_iff]
      intro a ha
      simp [List.flatten_eq_nil_iff.mp hT a ha, strNonEmpty]
    simp [hF, hT, uiStep, doneResponse, strNonEmpty]
  · have hTb : strNonEmpty deltas.flatten = true := (strNonEmpty_iff _).mpr hT
    rw [if_neg hT, htexts]
    have hmem : ∀ d ∈ (deltas.filter strNonEmpty) ++ [deltas.flatten], d ≠ [] := by
      intro d hd
      rcases List.mem_append.mp hd with h1 | h2
      · exact (strNonEmpty_iff d).mp (List.mem_filter.mp h1).2
      · simp only [List.mem_singleton] at h2; subst h2; exact hT
    have hcomb :
        (deltas.filter strNonEmpty).map
            (fun d => ({ modelID := "grok", content := d } : Response))
          ++ (if strNonEmpty deltas.flatten then
                [({ modelID := "grok", content := deltas.flatten } : Response)] else [])
          ++ [doneResponse "grok"]
        = ((deltas.filter strNonEmpty ++ [deltas.flatten]).map
            (fun d => ({ modelID := "grok", content := d } : Response)))
          ++ [doneResponse "grok"] := by
      simp [hTb]
    rw [hcomb, List.foldl_append, ui_fold_contents "grok" _ _ hmem]
    simp [uiStep, doneResponse, flatten_filter_strNonEmpty]

/-- Claim C5, counterexample: SSE deltas `"Hel"`, `"lo, "`, `"world"`
followed by `finish_reason = stop` yield exactly one sealed model
message, but its content is `"Hello, worldHello, world"`, not
`"Hello, world"`: the content is duplicated. -/
theorem c5_duplicated_content_counterexample :
    grokPipelineSealed (mkGrokStream
      [("Hel" : String).toList, ("lo, " : String).toList, ("world" : String).toList])
      = [("Hello, worldHello, world" : String).toList]
    ∧ ("Hello, worldHello, world" : String).toList ≠ ("Hello, world" : String).toList := by
  refine ⟨by decide, by decide⟩
/-- The message rows that appending `msgs` to debate `did` creates,
starting from autoincrement value `n`. -/
def rowsFrom (did : String) : Nat → List (String × Str × String) → List MessageRow
  | _, [] => []
  | n, m :: ms => ⟨n, did, m.1, m.2.1, m.2.2⟩ :: rowsFrom did (n + 1) ms

lemma rowsFrom_mem_id (did : String) :
    ∀ (msgs : List (String × Str × String)) (n : Nat) (r : MessageRow),
      r ∈ rowsFrom did n msgs → n ≤ r.id ∧ r.debateID = did := by
  intro msgs
  induction msgs with
  | nil => intro n r hr; simp [rowsFrom] at hr
  | cons m ms ih =>
    intro n r hr
    rcases hr with _ | hr'
    · exact ⟨le_refl _, rfl⟩
    · have h2 := ih (n + 1) r (by assumption)
      exact ⟨by omega, h2.2⟩

lemma rowsFrom_sorted (did : String) :
    ∀ (msgs : List (String × Str × String)) (n : Nat),
      List.Sorted (fun a b : MessageRow => a.id ≤ b.id) (rowsFrom did n msgs) := by
  intro msgs
  induction msgs with
  | nil => intro n; simp [rowsFrom]
  | cons m ms ih =>
    intro n
    rw [rowsFrom, List.sorted_cons]
    refine ⟨?_, ih (n + 1)⟩
    intro b hb
    have h := (rowsFrom_mem_id did ms (n + 1) b hb).1
    show n ≤ b.id
    omega

lemma rowsFrom_filter (did : String) :
    ∀ (msgs : List (String × Str × String)) (n : Nat),
      (rowsFrom did n msgs).filter (fun m => m.debateID = did) = rowsFrom did n msgs := by
  intro msgs n
  apply List.filter_eq_self.mpr
  intro a ha
  simp [(rowsFrom_mem_id did msgs n a ha).2]

lemma rowsFrom_map (did : String) :
    ∀ (msgs : List (String × Str × String)) (n : Nat),
      (rowsFrom did n msgs).map (fun r => (r.source, r.content, r.msgType)) = msgs := by
  intro msgs
  induction msgs with
  | nil => intro n; rfl
  | cons m ms ih => intro n; simp [rowsFrom, ih (n + 1)]

lemma foldl_addMessage (did : String) :
    ∀ (msgs : List (String × Str × String)) (s : Store),
      (msgs.foldl (fun s m => (AddMessage s did m.1 m.2.1 m.2.2).1) s).messages
        = s.messages ++ rowsFrom did s.nextMsgId msgs := by
  intro msgs
  induction msgs with
  | nil => intro s; simp [rowsFrom]
  | cons m ms ih =>
    intro s
    rw [List.foldl_cons, ih]
    simp [AddMessage, rowsFrom]

/-- Claim C6: Creating a debate in a fresh store, appending N messages
via `AddMessage`, closing and reopening the store, then calling
`GetMessages` for that debate returns exactly the same N messages, in
the same order, with the same sources, contents and types. -/
theorem c6_store_roundtrip (id name pp : String) (msgs : List (String × Str × String)) :
    (do
      let s1 ← CreateDebate openEmptyStore id name pp
      let s2 := msgs.foldl (fun s m => (AddMessage s id m.1 m.2.1 m.2.2).1) s1
      Except.ok ((GetMessages (closeReopen s2) id).map (fun r => (r.source, r.content, r.msgType))))
    = Except.ok msgs := by
  have h1 : CreateDebate openEmptyStore id name pp
      = Except.ok ({ debates := [⟨id, name, pp, "active", "", 0, 0⟩],
                     messages := [], nextMsgId := 1, clock := 1 } : Store) := by
    simp [CreateDebate, openEmptyStore]
  rw [h1]
  show Except.ok _ = _
  congr 1
  unfold closeReopen GetMessages
  rw [foldl_addMessage]
  simp only [List.nil_append]
  rw [rowsFrom_filter, (rowsFrom_sorted id msgs 1).insertionSort_eq, rowsFrom_map]


lemma splitSlash_ne_nil (p : Str) : splitSlash p ≠ [] := by
  induction p with
  | nil => simp [splitSlash]
  | cons c rest ih =>
    by_cases hc : c = '/'
    · simp [splitSlash, hc]
    · rcases h : splitSlash rest with _ | ⟨q, qs⟩ <;> simp [splitSlash, hc, h]

lemma splitSlash_noSlash (p : Str) : ∀ part ∈ splitSlash p, '/' ∉ part := by
  induction p with
  | nil => intro part hp; simp [splitSlash] at hp; simp [hp]
  | cons c rest ih =>
    intro part hp
    by_cases hc : c = '/'
    · simp only [splitSlash, hc, if_pos, List.mem_cons] at hp
      rcases hp with rfl | hp
      · simp
      · exact ih part hp
    · rcases h : splitSlash rest with _ | ⟨q, qs⟩
      · exact absurd h (splitSlash_ne_nil rest)
      · simp only [splitSlash, hc, if_neg, ite_false, h, List.mem_cons] at hp
        rcases hp with rfl | hp
        · intro hmem
          rcases List.mem_cons.mp hmem with h1 | h1
          · exact hc h1.symm
          · exact ih q (h ▸ List.mem_cons_self q qs) h1
        · exact ih part (h ▸ List.mem_cons_of_mem q hp)

lemma splitSlash_noSlash_self (x : Str) (h : '/' ∉ x) : splitSlash x = [x] := by
  induction x with
  | nil => rfl
  | cons c rest ih =>
    have hc : ¬ c = '/' := fun hh => h (by simp [hh])
    have hr : '/' ∉ rest := fun hh => h (List.mem_cons_of_mem _ hh)
    simp [splitSlash, hc, ih hr]

lemma splitSlash_append_slash (x t : Str) (h : '/' ∉ x) :
    splitSlash (x ++ '/' :: t) = x :: splitSlash t := by
  induction x with
  | nil => simp [splitSlash]
  | cons c rest ih =>
    have hc : ¬ c = '/' := fun hh => h (by simp [hh])
    have hr : '/' ∉ rest := fun hh => h (List.mem_cons_of_mem _ hh)
    rw [List.cons_append]
    simp [splitSlash, hc, ih hr]

lemma splitSlash_joinSlash :
    ∀ (xs : List Str) (x : Str), '/' ∉ x → (∀ y ∈ xs, '/' ∉ y) →
      splitSlash (joinSlash (x :: xs)) = x :: xs := by
  intro xs
  induction xs with
  | nil => intro x hx _; simp [joinSlash, splitSlash_noSlash_self x hx]
  | cons y ys ih =>
    intro x hx hys
    have : joinSlash (x :: y :: ys) = x ++ '/' :: joinSlash (y :: ys) := rfl
    rw [this, splitSlash_append_slash _ _ hx,
      ih y (hys y (List.mem_cons_self _ _)) (fun z hz => hys z (List.mem_cons_of_mem _ hz))]

/-- Elements of a cleaned rooted path: non-empty, not `.`, not `..`,
slash-free. -/
def goodPart (part : Str) : Prop :=
  part ≠ [] ∧ part ≠ ['.'] ∧ part ≠ ['.', '.'] ∧ '/' ∉ part

lemma cleanStep_skip (stack : List Str) (part : Str) (h : part = [] ∨ part = ['.']) :
    cleanStep true stack part = stack := by
  unfold cleanStep
  rw [if_pos h]

lemma cleanStep_pop_nil (part : Str) (h1 : ¬(part = [] ∨ part = ['.']))
    (h2 : part = ['.', '.']) : cleanStep true [] part = [] := by
  unfold cleanStep
  rw [if_neg h1, if_pos h2]
  rfl

lemma cleanStep_pop (top : Str) (rest : List Str) (part : Str)
    (h1 : ¬(part = [] ∨ part = ['.'])) (h2 : part = ['.', '.'])
    (htop : top ≠ ['.', '.']) : cleanStep true (top :: rest) part = rest := by
  unfold cleanStep
  rw [if_neg h1, if_pos h2]
  dsimp only
  rw [if_pos htop]

lemma cleanStep_push (stack : List Str) (part : Str)
    (h1 : ¬(part = [] ∨ part = ['.'])) (h2 : ¬ part = ['.', '.']) :
    cleanStep true stack part = part :: stack := by
  unfold cleanStep
  rw [if_neg h1, if_neg h2]

lemma cleanStep_good (stack : List Str) (part : Str)
    (hpart : '/' ∉ part) (hstack : ∀ s ∈ stack, goodPart s) :
    ∀ q ∈ cleanStep true stack part, goodPart q := by
  intro q hq
  by_cases h1 : part = [] ∨ part = ['.']
  · rw [cleanStep_skip stack part h1] at hq
    exact hstack q hq
  · by_cases h2 : part = ['.', '.']
    · cases stack with
      | nil => rw [cleanStep_pop_nil part h1 h2] at hq; simp at hq
      | cons top rest =>
        have htop : top ≠ ['.', '.'] := (hstack top (List.mem_cons_self _ _)).2.2.1
        rw [cleanStep_pop top rest part h1 h2 htop] at hq
        exact hstack q (List.mem_cons_of_mem _ hq)
    · rw [cleanStep_push stack part h1 h2] at hq
      rcases List.mem_cons.mp hq with rfl | hq'
      · push_neg at h1
        exact ⟨h1.1, h1.2, h2, hpart⟩
      · exact hstack q hq'

lemma foldl_cleanStep_good :
    ∀ (parts stack : List Str),
      (∀ part ∈ parts, '/' ∉ part) → (∀ s ∈ stack, goodPart s) →
      ∀ s ∈ parts.foldl (cleanStep true) stack, goodPart s := by
  intro parts
  induction parts with
  | nil => intro stack _ hstack s hs; exact hstack s hs
  | cons part ps ih =>
    intro stack hparts hstack s hs
    rw [List.foldl_cons] at hs
    exact ih (cleanStep true stack part)
      (fun q hq => hparts q (List.mem_cons_of_mem _ hq))
      (cleanStep_good stack part (hparts part (List.mem_cons_self _ _)) hstack) s hs

lemma foldl_cleanStep_push :
    ∀ (parts stack : List Str), (∀ part ∈ parts, goodPart part) →
      parts.foldl (cleanStep true) stack = parts.reverse ++ stack := by
  intro parts
  induction parts with
  | nil => intro stack _; simp
  | cons part ps ih =>
    intro stack h
    have hp := h part (List.mem_cons_self _ _)
    have hstep : cleanStep true stack part = part :: stack :=
      cleanStep_push stack part (by push_neg; exact ⟨hp.1, hp.2.1⟩) hp.2.2.1
    rw [List.foldl_cons, hstep, ih _ (fun q hq => h q (List.mem_cons_of_mem _ hq))]
    simp

lemma goClean_rooted (p : Str) (hp : p.head? = some '/') :
    goClean p = '/' :: joinSlash (((splitSlash p).foldl (cleanStep true) []).reverse) := by
  have hne : p ≠ [] := by cases p <;> simp_all
  unfold goClean
  simp [hne, hp]

lemma goClean_head_rooted (p : Str) (hp : p.head? = some '/') :
    (goClean p).head? = some '/' := by
  rw [goClean_rooted p hp]; rfl

lemma goClean_idem_rooted (p : Str) (hp : p.head? = some '/') :
    goClean (goClean p) = goClean p := by
  have hparts : ∀ part ∈ splitSlash p, '/' ∉ part := splitSlash_noSlash p
  have hgood : ∀ s ∈ (splitSlash p).foldl (cleanStep true) [], goodPart s :=
    foldl_cleanStep_good _ [] hparts (by simp)
  rw [goClean_rooted p hp]
  cases hrev : ((splitSlash p).foldl (cleanStep true) []).reverse with
  | nil =>
    show goClean ['/'] = '/' :: joinSlash []
    decide
  | cons x xs =>
    have hgoodrev : ∀ s ∈ x :: xs, goodPart s := by
      intro s hs
      apply hgood
      rw [← List.mem_reverse, hrev]
      exact hs
    have hnos : ∀ s ∈ x :: xs, '/' ∉ s := fun s hs => (hgoodrev s hs).2.2.2
    rw [goClean_rooted _ (by simp)]
    have hsplit : splitSlash ('/' :: joinSlash (x :: xs)) = [] :: x :: xs := by
      have : splitSlash ('/' :: joinSlash (x :: xs)) = [] :: splitSlash (joinSlash (x :: xs)) := by
        simp [splitSlash]
      rw [this, splitSlash_joinSlash xs x (hnos x (List.mem_cons_self _ _))
        (fun y hy => hnos y (List.mem_cons_of_mem _ hy))]
    rw [hsplit, List.foldl_cons]
    have hskip : cleanStep true [] [] = [] := rfl
    rw [hskip, foldl_cleanStep_push (x :: xs) [] hgoodrev]
    simp

lemma goAbs_head (cwd p : Str) (hcwd : cwd.head? = some '/') :
    (goAbs cwd p).head? = some '/' := by
  unfold goAbs
  split_ifs with h
  · exact goClean_head_rooted p h
  · apply goClean_head_rooted
    cases cwd <;> simp_all

lemma goClean_goAbs (cwd p : Str) (hcwd : cwd.head? = some '/') :
    goClean (goAbs cwd p) = goAbs cwd p := by
  unfold goAbs
  split_ifs with h
  · exact goClean_idem_rooted p h
  · apply goClean_idem_rooted
    cases cwd <;> simp_all

lemma goAbs_idem (cwd p : Str) (hcwd : cwd.head? = some '/') :
    goAbs cwd (goAbs cwd p) = goAbs cwd p := by
  have h1 : (goAbs cwd p).head? = some '/' := goAbs_head cwd p hcwd
  conv_lhs => rw [goAbs]
  rw [if_pos h1, goClean_goAbs cwd p hcwd]

/-- Claim C7, amended: Every input path whose resolved absolute form
matches the sensitive denylist is rejected by the loader with an error
— before any file content is read: the result is determined by the stat
information alone and never consults the file's content.  Paths
containing `..` are NOT rejected as traversal (see the counterexample):
`filepath.Abs` has already cleaned the path, so `ValidatePath`'s
traversal branch can never fire. -/
theorem c7_denylist_rejection_amended (fs : FS) (cwd p : Str)
    (hcwd : cwd.head? = some '/')
    (hs : isSensitivePath (goAbs cwd p) = true) :
    LoadFile fs cwd p =
      .error (match statFS fs (goAbs cwd p) with
              | none => notExistMsg (goAbs cwd p)
              | some _ => sensitiveMsg) := by
  have hval : ValidatePath fs cwd (goAbs cwd p)
      = .error (match statFS fs (goAbs cwd p) with
                | none => notExistMsg (goAbs cwd p)
                | some _ => sensitiveMsg) := by
    simp only [ValidatePath, goAbs_idem cwd p hcwd, goClean_goAbs cwd p hcwd]
    rw [if_neg (by simp)]
    cases hstat : statFS fs (goAbs cwd p) with
    | none => rfl
    | some info => simp [hs]
  simp only [LoadFile, hval]

def fsTraversal : FS :=
  [(("/home/u/notes/ok.txt" : String).toList, ⟨false, 5, ("hello" : String).toList⟩)]

/-- Claim C7, counterexample: The input path `"../notes/ok.txt"`
contains `..` — also after normalization, since `filepath.Clean` keeps
leading `..` on relative paths — resolves to an existing, non-sensitive
file, and the loader reads and returns its content instead of rejecting
the path. -/
theorem c7_traversal_counterexample :
    containsSub ['.', '.'] ("../notes/ok.txt" : String).toList = true
    ∧ goClean ("../notes/ok.txt" : String).toList = ("../notes/ok.txt" : String).toList
    ∧ LoadFile fsTraversal ("/home/u/proj" : String).toList ("../notes/ok.txt" : String).toList
        = .ok ("hello" : String).toList := by
  refine ⟨by decide, by decide, rfl⟩

def fsSensitive : FS :=
  [(("/home/u/.ssh/id_rsa" : String).toList, ⟨false, 10, ("KEY" : String).toList⟩)]

/-- Witness for the amended C7 theorem at a concrete sensitive path. -/
theorem c7_denylist_rejection_amended_witness :
    (("/home/u" : String).toList.head? = some '/')
    ∧ isSensitivePath (goAbs ("/home/u" : String).toList (".ssh/id_rsa" : String).toList) = true
    ∧ LoadFile fsSensitive ("/home/u" : String).toList (".ssh/id_rsa" : String).toList
        = .error sensitiveMsg := by
  refine ⟨rfl, by decide, ?_⟩
  have h := c7_denylist_rejection_amended fsSensitive ("/home/u" : String).toList (".ssh/id_rsa" : String).toList
    (by rfl) (by decide)
  rw [h]
  rfl


/-- Claim C10: An API-backed model (`gpt`, `grok`) is in the registry iff
it is enabled and its api key is non-empty: with `enabled = true` but an
empty key the model is silently omitted, so `Enabled()` does not list it
and `Get()` returns `nil` for its id. -/
theorem c10_api_backends_need_key (cfg : Config) :
    ((NewRegistry cfg).get "gpt" =
      if cfg.GPT.Enabled ∧ cfg.GPT.APIKey ≠ "" then some gptInfo else none)
    ∧ ((NewRegistry cfg).enabledIds.contains "gpt" =
        decide (cfg.GPT.Enabled ∧ cfg.GPT.APIKey ≠ ""))
    ∧ ((NewRegistry cfg).get "grok" =
      if cfg.Grok.Enabled ∧ cfg.Grok.APIKey ≠ "" then some grokInfo else none)
    ∧ ((NewRegistry cfg).enabledIds.contains "grok" =
        decide (cfg.Grok.Enabled ∧ cfg.Grok.APIKey ≠ "")) := by
  by_cases hC : cfg.Claude.Enabled <;>
  by_cases hG : cfg.Gemini.Enabled <;>
  by_cases hP : cfg.GPT.Enabled ∧ cfg.GPT.APIKey ≠ "" <;>
  by_cases hK : cfg.Grok.Enabled ∧ cfg.Grok.APIKey ≠ "" <;>
    simp [NewRegistry, Registry.get, Registry.enabledIds, hC, hG, hP, hK, List.lookup]

end Roundtable
